import Mathlib

/-!
Shallow embedding of the PoB load-balancer / worker testbed.

Numeric conventions: Python floats (timestamps, latencies, probabilities)
are modelled as rationals (`ℚ`); Python ints are `Int` where they may be
negative (`current_weight`) and `Nat` for monotone counters.  Mutation is
modelled by explicit state passing; the wall clock is an explicit argument.
-/

namespace PoB

/-- Per-worker record of the LB registry (src/lb/core/registry.py, `WorkerState`). -/
structure WorkerState where
  id : String
  url : String
  reported_weight : Int := 1
  manual_weight : Option Int := none
  auto_weight : Option Int := none
  effective_weight : Int := 1
  current_weight : Int := 0
  online : Bool := true
  disabled_until : ℚ := 0
  assigned : Nat := 0
  ok : Nat := 0
  fail : Nat := 0
  avg_latency_ms : ℚ := 0
  recent_latency_ms : ℚ := 0
  recent_fail_rate : ℚ := 0
  last_error : Option String := none
  last_seen : ℚ := 0
  reported_base_lat_ms : Option Int := none
  deriving Repr, DecidableEq

/-- `WorkerState.eligible` (registry.py line 32), with the wall clock explicit. -/
def eligible (now : ℚ) (w : WorkerState) : Bool :=
  w.online && decide (0 < w.effective_weight) && decide (w.disabled_until ≤ now)

/-- The mode-specific weight override used by `recompute_effective`
(registry.py lines 35-41): `manual → manual_weight ?? reported_weight`,
`auto → auto_weight ?? reported_weight`, otherwise `reported_weight`. -/
def modeOverride (mode : String) (w : WorkerState) : Int :=
  if mode = "manual" then w.manual_weight.getD w.reported_weight
  else if mode = "auto" then w.auto_weight.getD w.reported_weight
  else w.reported_weight

/-- `WorkerState.recompute_effective` (registry.py lines 35-42). -/
def recompute_effective (mode : String) (w : WorkerState) : WorkerState :=
  { w with effective_weight := max 1 (modeOverride mode w) }

/-- In-place update of the element at one index, as Python's mutation of a
list element through a shared reference. -/
def modifyIdx (f : α → α) : Nat → List α → List α
  | _, [] => []
  | 0, x :: xs => f x :: xs
  | n + 1, x :: xs => x :: modifyIdx f n xs

/-- `current_weight` of the worker at index `i` (0 when out of range; all uses
stay in range). -/
def cwAt (ws : List WorkerState) (i : Nat) : Int :=
  ((ws.get? i).map WorkerState.current_weight).getD 0

/-- Indices of the eligible workers, in registry order
(`[w for w in self._workers if w.eligible()]`, smooth_wrr.py line 16). -/
def eligIdx (now : ℚ) (ws : List WorkerState) : List Nat :=
  ((List.range ws.length).filter fun i =>
    match ws.get? i with
    | some w => eligible now w
    | none => false)

/-- `w.current_weight += w.effective_weight` on one record (smooth_wrr.py line 24). -/
def bumpOne (w : WorkerState) : WorkerState :=
  { w with current_weight := w.current_weight + w.effective_weight }

/-- `effective_weight` of the worker at index `i` (0 when out of range). -/
def effAt (ws : List WorkerState) (i : Nat) : Int :=
  ((ws.get? i).map WorkerState.effective_weight).getD 0

/-- One iteration of the selection loop of `SmoothWRR.choose`
(smooth_wrr.py lines 23-26): bump the worker at index `i`, then keep it as
best iff its bumped `current_weight` is strictly greater than the current
best's (so on ties the earlier worker wins). -/
def chooseStep (acc : List WorkerState × Option Nat) (i : Nat) :
    List WorkerState × Option Nat :=
  let ws1 := modifyIdx bumpOne i acc.1
  let best :=
    match acc.2 with
    | none => some i
    | some b => if cwAt ws1 b < cwAt ws1 i then some i else some b
  (ws1, best)

/-- The whole selection loop of `SmoothWRR.choose` (smooth_wrr.py lines 22-26). -/
def chooseFold (idxs : List Nat) (ws : List WorkerState) :
    List WorkerState × Option Nat :=
  idxs.foldl chooseStep (ws, none)

/-- `total = sum(w.effective_weight for w in eligible)` (smooth_wrr.py line 20). -/
def wrrTotal (now : ℚ) (ws : List WorkerState) : Int :=
  ((eligIdx now ws).map (effAt ws)).sum

/-- `SmoothWRR.choose` (smooth_wrr.py lines 14-31).  Returns the index of the
chosen worker, in registry order, together with the updated registry. -/
def choose (now : ℚ) (ws : List WorkerState) : Option Nat × List WorkerState :=
  let idxs := eligIdx now ws
  if idxs.isEmpty then (none, ws)
  else
    match chooseFold idxs ws with
    | (ws1, none) => (none, ws1)
    | (ws1, some b) =>
        (some b,
          modifyIdx
            (fun w => { w with current_weight := w.current_weight - wrrTotal now ws,
                               assigned := w.assigned + 1 }) b ws1)

/-- Specification-side description of phase one of the loop: every eligible
worker bumped by its own `effective_weight`. -/
def bumpAll (idxs : List Nat) (ws : List WorkerState) : List WorkerState :=
  idxs.foldl (fun a i => modifyIdx bumpOne i a) ws

/-- `_ewma` (lb/app.py lines 96-97). -/
def ewma (prev new alpha : ℚ) : ℚ :=
  if prev ≤ 0 then new else alpha * new + (1 - alpha) * prev

/-- `_disable_temporarily` (lb/app.py lines 100-101), with the wall clock
explicit. -/
def disable_temporarily (now seconds : ℚ) (w : WorkerState) : WorkerState :=
  { w with disabled_until := now + seconds }

/-- `_record_success` (lb/app.py lines 104-107). -/
def record_success (alpha latency_ms : ℚ) (w : WorkerState) : WorkerState :=
  { w with ok := w.ok + 1,
           avg_latency_ms := ewma w.avg_latency_ms latency_ms alpha,
           last_error := none }

/-- `_record_failure` (lb/app.py lines 110-112). -/
def record_failure (err : String) (w : WorkerState) : WorkerState :=
  { w with fail := w.fail + 1, last_error := some err }

/-- The fields of a worker's `/health` response body the prober consumes
(lb/app.py lines 137-149); a field is `none` when absent or unparseable. -/
structure HealthData where
  worker_id : Option String := none
  weight : Option Int := none
  base_lat_ms : Option Int := none
  deriving Repr, DecidableEq

/-- Per-worker update of `_refresh_health_once` (lb/app.py lines 126-151):
on probe error mark offline and tag `last_error`; on success mark online,
refresh `last_seen`, apply reported id / weight (clamped to ≥ 1) /
base-latency, then recompute the effective weight. -/
def healthApply (mode : String) (now : ℚ) (res : Except String HealthData)
    (w : WorkerState) : WorkerState :=
  match res with
  | .error e => { w with online := false, last_error := some ("health: " ++ e) }
  | .ok d =>
      let w1 := { w with online := true, last_seen := now, last_error := none }
      let w2 := match d.worker_id with
        | some i => { w1 with id := i }
        | none => w1
      let w3 := match d.weight with
        | some v => { w2 with reported_weight := max 1 v }
        | none => w2
      let w4 := match d.base_lat_ms with
        | some v => { w3 with reported_base_lat_ms := some v }
        | none => w3
      recompute_effective mode w4

/-- One tick of the health prober over the whole registry
(lb/app.py lines 115-151), probe outcomes given by `res`. -/
def refreshHealthOnce (mode : String) (now : ℚ) (res : Nat → Except String HealthData)
    (ws : List WorkerState) : List WorkerState :=
  ws.enum.map fun p => healthApply mode now (res p.1) p.2

/-- Python `round` on a float: round half to even. -/
def pyRound (q : ℚ) : Int :=
  let f := q.floor
  let r := q - (f : ℚ)
  if r < 1/2 then f
  else if 1/2 < r then f + 1
  else if f % 2 = 0 then f else f + 1

/-- `fail / max(1, ok + fail)` (lb/app.py lines 169-170). -/
def failRate (w : WorkerState) : ℚ :=
  (w.fail : ℚ) / ((max 1 (w.ok + w.fail) : ℕ) : ℚ)

/-- The latency input of the auto-weight score (lb/app.py lines 172-176):
`avg_latency_ms` if positive, else `reported_base_lat_ms` if present and
positive, else 50. -/
def scoreLat (w : WorkerState) : ℚ :=
  let lat := w.avg_latency_ms
  let lat2 :=
    if lat ≤ 0 then
      match w.reported_base_lat_ms with
      | some v => (v : ℚ)
      | none => lat
    else lat
  if lat2 ≤ 0 then 50 else lat2

/-- One worker's score `max(0, 1/(L+1) · (1 − f))` (lb/app.py lines 178-179). -/
def score (w : WorkerState) : ℚ :=
  max 0 ((1 / (scoreLat w + 1)) * (1 - failRate w))

/-- Python `max` over a list (the scores list is nonempty at every use). -/
def listMax : List ℚ → ℚ
  | [] => 0
  | x :: xs => xs.foldl max x

/-- `_compute_auto_weights` (lb/app.py lines 163-187) with `AUTO_WEIGHT_MAX`
a parameter: score the online workers, normalise by the maximum score
(`or 1.0` makes a zero maximum fall back to 1), and assign
`auto_weight = max(1, round(amax · s / s_max))` to each online worker;
offline workers are untouched. -/
def computeAutoWeights (amax : Int) (ws : List WorkerState) : List WorkerState :=
  let scores := (ws.filter (·.online)).map score
  if scores.isEmpty then ws
  else
    let m0 := listMax scores
    let m := if m0 = 0 then 1 else m0
    ws.map fun w =>
      if w.online then
        { w with auto_weight := some (max 1 (pyRound ((amax : ℚ) * (score w / m)))) }
      else w

/-- One tick of `_auto_loop` (lb/app.py lines 190-200): only in `auto` mode,
compute auto weights then recompute every worker's effective weight. -/
def autoTick (amax : Int) (mode : String) (ws : List WorkerState) : List WorkerState :=
  if mode = "auto" then (computeAutoWeights amax ws).map (recompute_effective mode)
  else ws

/-- `POST /lb/weight-mode` (lb/control/weights.py lines 25-32): switch the
mode and recompute every worker's effective weight. -/
def setWeightMode (mode : String) (ws : List WorkerState) : List WorkerState :=
  ws.map (recompute_effective mode)

/-- `PATCH /workers/{id}/manual-weight` (lb/control/weights.py lines 41-54)
on the found worker: a 409 leaves the record unchanged unless the mode is
`manual`. -/
def setManualWeight (mode : String) (weight : Int) (w : WorkerState) : WorkerState :=
  if mode = "manual" then
    recompute_effective mode { w with manual_weight := some weight }
  else w

/-- `DELETE /workers/{id}/manual-weight` (lb/control/weights.py lines 57-68). -/
def clearManualWeight (mode : String) (w : WorkerState) : WorkerState :=
  recompute_effective mode { w with manual_weight := none }

/-- The per-worker zeroing of `POST /experiment/reset`
(lb/control/experiment.py lines 63-71). -/
def resetWorker (w : WorkerState) : WorkerState :=
  { w with assigned := 0, ok := 0, fail := 0, avg_latency_ms := 0,
           current_weight := 0, disabled_until := 0,
           last_error := if w.online then none else w.last_error }

/-- The registry effect of `POST /experiment/reset`. -/
def resetExperiment (ws : List WorkerState) : List WorkerState :=
  ws.map resetWorker

/-- One entry of the reset response (lb/control/experiment.py `ResetResult`). -/
structure ResetResult where
  target : String
  id : Option String := none
  ok : Bool
  detail : Option String := none
  deriving Repr, DecidableEq

/-- The per-target result list of `reset_experiment`
(lb/control/experiment.py lines 45-83): clientgen stop, clientgen reset,
one entry per worker, LB runtime stats, LB history.  Each external call's
outcome is a parameter: `none` = success, `some e` = exception string. -/
def resetResults (cgStop cgReset : Option String)
    (workerRes : List (String × Option String)) (historyErr : Option String) :
    List ResetResult :=
  [⟨"clientgen", some "stop", cgStop.isNone, cgStop⟩,
   ⟨"clientgen", some "reset", cgReset.isNone, cgReset⟩]
    ++ workerRes.map (fun p => ⟨"worker", some p.1, p.2.isNone, p.2⟩)
    ++ [⟨"lb", some "runtime_stats", true, none⟩,
        ⟨"lb", some "history", historyErr.isNone, historyErr⟩]

/-- Outcome of one upstream `forward_handle` call as the dispatch loop sees
it: a transport exception, or an HTTP status with the forward latency. -/
inductive ForwardOutcome where
  | exn (e : String)
  | resp (status : Int) (ms : ℚ)
  deriving Repr, DecidableEq

/-- Result of `POST /request` (lb/app.py lines 303-349). -/
inductive DispatchResult where
  | ok (worker : Nat) (attempt : Nat) (status : Int)
  | passthrough (worker : Nat) (attempt : Nat) (status : Int)
  | noEligible
  | allFailed (lastErr : Option String)
  deriving Repr, DecidableEq

/-- The retry loop of `handle_request` (lb/app.py lines 308-349).
`remaining` counts the attempts still allowed, `attempt` is the 1-based
attempt number; `oracle` gives each attempt's forward outcome and `timeAt`
the wall clock during each attempt. -/
def dispatchGo (alpha disableSec : ℚ) (oracle : Nat → ForwardOutcome)
    (timeAt : Nat → ℚ) :
    Nat → Nat → Option String → List WorkerState → DispatchResult × List WorkerState
  | 0, _, lastErr, ws => (.allFailed lastErr, ws)
  | remaining + 1, attempt, lastErr, ws =>
    match choose (timeAt attempt) ws with
    | (none, ws1) => (.noEligible, ws1)
    | (some i, ws1) =>
      match oracle attempt with
      | .resp status ms =>
        if 200 ≤ status ∧ status < 300 then
          (.ok i attempt status, modifyIdx (record_success alpha ms) i ws1)
        else
          let msg := "http " ++ toString status
          let ws2 := modifyIdx (record_failure msg) i ws1
          if 500 ≤ status then
            dispatchGo alpha disableSec oracle timeAt remaining (attempt + 1) (some msg)
              (modifyIdx (disable_temporarily (timeAt attempt) disableSec) i ws2)
          else (.passthrough i attempt status, ws2)
      | .exn e =>
        let msg := "forward: " ++ e
        dispatchGo alpha disableSec oracle timeAt remaining (attempt + 1) (some msg)
          (modifyIdx (disable_temporarily (timeAt attempt) disableSec) i
            (modifyIdx (record_failure msg) i ws1))

/-- `handle_request` (lb/app.py lines 303-349): run the retry loop for
`max 1 RETRY_ATTEMPTS` attempts starting at attempt 1 with no last error. -/
def handleRequestLB (alpha disableSec : ℚ) (retryAttempts : Nat)
    (oracle : Nat → ForwardOutcome) (timeAt : Nat → ℚ)
    (ws : List WorkerState) : DispatchResult × List WorkerState :=
  dispatchGo alpha disableSec oracle timeAt (max 1 retryAttempts) 1 none ws

/-- A raw fault-creation payload, as the JSON body of `POST /faults`:
every field optional except `kind`. -/
structure FaultPayload where
  kind : String
  delay_ms : Option Int := none
  mode : Option String := none
  status_code : Option Int := none
  sleep_ms : Option Int := none
  probability : Option ℚ := none
  duration_sec : Option ℚ := none
  message : Option String := none
  burn_ms : Option Int := none
  deriving Repr, DecidableEq

/-- The validated variants of the source's discriminated union `FaultCreate`
(worker/faults.py lines 12-38): only `delay`, `drop` and `corrupt` exist. -/
inductive FaultCreate where
  | delay (delay_ms : Int) (probability : ℚ) (duration_sec : Option ℚ)
  | drop (mode : String) (status_code : Int) (sleep_ms : Int) (probability : ℚ)
      (duration_sec : Option ℚ)
  | corrupt (mode : String) (probability : ℚ) (duration_sec : Option ℚ)
  deriving Repr, DecidableEq

/-- Pydantic validation of `probability` (default 1, range [0, 1]). -/
def validProb (p : Option ℚ) : Option ℚ :=
  match p with
  | none => some 1
  | some q => if 0 ≤ q ∧ q ≤ 1 then some q else none

/-- Pydantic validation of `duration_sec` (optional, range [0.1, 86400]). -/
def validDuration (d : Option ℚ) : Option (Option ℚ) :=
  match d with
  | none => some none
  | some q => if 1 / 10 ≤ q ∧ q ≤ 86400 then some (some q) else none

/-- Validation of a creation payload against the discriminated union
`FaultCreate` (worker/faults.py lines 12-38, used by `POST /faults`):
dispatch on `kind` with the source's field defaults and ranges; `error`
and `cpu_burn` are not members of the union, so payloads with those kinds
are rejected. -/
def validateFaultCreate (p : FaultPayload) : Option FaultCreate :=
  if p.kind = "delay" then
    match p.delay_ms, validProb p.probability, validDuration p.duration_sec with
    | some d, some pr, some du =>
        if 0 ≤ d ∧ d ≤ 60000 then some (.delay d pr du) else none
    | _, _, _ => none
  else if p.kind = "drop" then
    let mode := p.mode.getD "503"
    let sc := p.status_code.getD 503
    let sl := p.sleep_ms.getD 5000
    match validProb p.probability, validDuration p.duration_sec with
    | some pr, some du =>
        if (mode = "503" ∨ mode = "timeout") ∧ (400 ≤ sc ∧ sc ≤ 599) ∧
            (1 ≤ sl ∧ sl ≤ 600000) then
          some (.drop mode sc sl pr du)
        else none
    | _, _ => none
  else if p.kind = "corrupt" then
    let mode := p.mode.getD "invalid_json"
    match validProb p.probability, validDuration p.duration_sec with
    | some pr, some du =>
        if mode = "invalid_json" ∨ mode = "bad_fields" then
          some (.corrupt mode pr du)
        else none
    | _, _ => none
  else none

/-- `getattr(fc, "duration_sec", None)` (worker/faults.py line 74). -/
def FaultCreate.duration : FaultCreate → Option ℚ
  | .delay _ _ d => d
  | .drop _ _ _ _ d => d
  | .corrupt _ _ d => d

/-- The `kind` discriminator of a validated creation. -/
def FaultCreate.kindOf : FaultCreate → String
  | .delay .. => "delay"
  | .drop .. => "drop"
  | .corrupt .. => "corrupt"

/-- A stored fault's `spec` dict: the fields the worker handler reads
(worker/app.py), each `none` when the key is absent. -/
structure FaultSpec where
  probability : Option ℚ := none
  mode : Option String := none
  status_code : Option Int := none
  sleep_ms : Option Int := none
  delay_ms : Option Int := none
  burn_ms : Option Int := none
  message : Option String := none
  duration_sec : Option ℚ := none
  deriving Repr, DecidableEq

/-- `fc.model_dump()` (worker/faults.py line 79): the stored spec of a
validated fault creation. -/
def FaultCreate.toSpec : FaultCreate → FaultSpec
  | .delay d p du => { delay_ms := some d, probability := some p, duration_sec := du }
  | .drop m sc sl p du =>
      { mode := some m, status_code := some sc, sleep_ms := some sl,
        probability := some p, duration_sec := du }
  | .corrupt m p du => { mode := some m, probability := some p, duration_sec := du }

/-- A stored fault record (worker/faults.py `Fault`). -/
structure Fault where
  id : String
  kind : String
  created_at : ℚ
  expires_at : Option ℚ
  spec : FaultSpec
  deriving Repr, DecidableEq

/-- `FaultRegistry.purge_expired` (worker/faults.py lines 62-65): keep the
faults that never expire or whose expiry is strictly in the future. -/
def purge_expired (now : ℚ) (fs : List Fault) : List Fault :=
  fs.filter fun f =>
    match f.expires_at with
    | none => true
    | some e => decide (now < e)

/-- `FaultRegistry.list_views` (worker/faults.py lines 67-69): purge expired
first, then return the views in insertion order (a view carries the same
fields as the record). -/
def list_views (now : ℚ) (fs : List Fault) : List Fault :=
  purge_expired now fs

/-- `FaultRegistry.snapshot_active` (worker/faults.py lines 94-96): purge
expired first, then return a copy of the records. -/
def snapshot_active (now : ℚ) (fs : List Fault) : List Fault :=
  purge_expired now fs

/-- `FaultRegistry.add` (worker/faults.py lines 71-82), with the fresh
12-hex id a parameter: `created_at = now`,
`expires_at = now + duration_sec` when a duration is present; the new
record is appended.  Returns the view and the new registry. -/
def addFault (now : ℚ) (fid : String) (fc : FaultCreate) (fs : List Fault) :
    Fault × List Fault :=
  let f : Fault :=
    { id := fid, kind := fc.kindOf, created_at := now,
      expires_at := fc.duration.map (fun d => now + d), spec := fc.toSpec }
  (f, fs ++ [f])

/-- `FaultRegistry.delete` (worker/faults.py lines 84-87). -/
def deleteFault (fid : String) (fs : List Fault) : Bool × List Fault :=
  let fs2 := fs.filter fun f => f.id ≠ fid
  (decide (fs2.length ≠ fs.length), fs2)

/-- `FaultRegistry.clear` (worker/faults.py lines 89-92). -/
def clearFaults (fs : List Fault) : Nat × List Fault :=
  (fs.length, [])

/-- `should_trigger` (worker/faults.py lines 99-104) with the uniform
sample `u ∈ [0, 1)` explicit. -/
def should_trigger (u p : ℚ) : Bool :=
  if 1 ≤ p then true
  else if p ≤ 0 then false
  else decide (u < p)

/-- Worker configuration (worker/app.py `WorkerConfig`, lines 22-26). -/
structure WorkerConfig where
  base_lat_ms : Int := 20
  jitter_ms : Int := 5
  capacity : Int := 50
  weight : Int := 1
  deriving Repr, DecidableEq

/-- Worker runtime counters (worker/app.py `Runtime`, lines 62-74). -/
structure WorkerRt where
  inflight : Int := 0
  total : Nat := 0
  ok : Nat := 0
  fail : Nat := 0
  last_error : Option String := none
  last_simulated_ms : Option Int := none
  last_completed_at : Option ℚ := none
  deriving Repr, DecidableEq

/-- Shared shape of `_pick_drop` / `_pick_corrupt` / `_pick_error`
(worker/app.py lines 132-159): the first fault of the given kind whose
probability fires; `u i` is the uniform sample drawn for the fault at
position `i` of the snapshot. -/
def pickFault (kind : String) (u : Nat → ℚ) (fs : List Fault) : Option Fault :=
  (fs.enum.find? fun q =>
    q.2.kind = kind && should_trigger (u q.1) (q.2.spec.probability.getD 1)).map (·.2)

/-- `_pick_drop` (worker/app.py lines 132-139). -/
def pick_drop (u : Nat → ℚ) (fs : List Fault) : Option Fault :=
  pickFault "drop" u fs

/-- `_pick_corrupt` (worker/app.py lines 142-149). -/
def pick_corrupt (u : Nat → ℚ) (fs : List Fault) : Option Fault :=
  pickFault "corrupt" u fs

/-- `_pick_error` (worker/app.py lines 152-159). -/
def pick_error (u : Nat → ℚ) (fs : List Fault) : Option Fault :=
  pickFault "error" u fs

/-- `_sum_delay_ms` (worker/app.py lines 103-111). -/
def sum_delay_ms (u : Nat → ℚ) (fs : List Fault) : Int :=
  max 0 ((fs.enum.map fun q =>
    if q.2.kind = "delay" && should_trigger (u q.1) (q.2.spec.probability.getD 1)
    then q.2.spec.delay_ms.getD 0 else 0).sum)

/-- `_sum_cpu_burn_ms` (worker/app.py lines 114-122). -/
def sum_cpu_burn_ms (u : Nat → ℚ) (fs : List Fault) : Int :=
  max 0 ((fs.enum.map fun q =>
    if q.2.kind = "cpu_burn" && should_trigger (u q.1) (q.2.spec.probability.getD 1)
    then q.2.spec.burn_ms.getD 0 else 0).sum)

/-- Result of `POST /handle` (worker/app.py lines 230-319). -/
inductive HandleResult where
  | dropRejected (status : Int)
  | errorFault (status : Int) (msg : String)
  | overCapacity
  | dropTimeout
  | corruptBody (mode : String)
  | success (simulated : Int)
  | unexpected (e : String)
  deriving Repr, DecidableEq

/-- The `try` block of `handle` (worker/app.py lines 263-315), entered after
admission.  `exn` injects an unexpected (non-HTTP) exception at the start
of the block; its effect is the `except` clause (fail + 1, record the
string).  The delay and CPU-burn sums only cost time, so they bind to
underscores here. -/
def handleTry (cfg : WorkerConfig) (now : ℚ) (uDelay uBurn uCor : Nat → ℚ)
    (jitter : Int) (exn : Option String) (dropOpt : Option Fault)
    (active : List Fault) (rt : WorkerRt) : HandleResult × WorkerRt :=
  match exn with
  | some e => (.unexpected e, { rt with fail := rt.fail + 1, last_error := some e })
  | none =>
    let _delay := sum_delay_ms uDelay active
    let _burn := sum_cpu_burn_ms uBurn active
    let isTimeout := match dropOpt with
      | some d => decide (d.spec.mode = some "timeout")
      | none => false
    if isTimeout then
      (.dropTimeout, { rt with fail := rt.fail + 1, last_error := some "fault_drop_timeout" })
    else
      let simulated := cfg.base_lat_ms + jitter
      match pick_corrupt uCor active with
      | some c =>
          (.corruptBody (c.spec.mode.getD "invalid_json"),
           { rt with fail := rt.fail + 1, last_error := some "fault_corrupt" })
      | none =>
          (.success simulated,
           { rt with ok := rt.ok + 1, last_simulated_ms := some simulated,
                     last_completed_at := some now, last_error := none })

/-- The admitted path of `handle`: the `try` block followed by the `finally`
clause `inflight = max(0, inflight - 1)` (worker/app.py lines 317-319). -/
def handleAdmitted (cfg : WorkerConfig) (now : ℚ) (uDelay uBurn uCor : Nat → ℚ)
    (jitter : Int) (exn : Option String) (dropOpt : Option Fault)
    (active : List Fault) (rt : WorkerRt) : HandleResult × WorkerRt :=
  let res := handleTry cfg now uDelay uBurn uCor jitter exn dropOpt active rt
  (res.1, { res.2 with inflight := max 0 (res.2.inflight - 1) })

/-- `handle` from the error-fault check onwards (worker/app.py lines
243-261): error fault, admission check, then the admitted path. -/
def handleRest (cfg : WorkerConfig) (now : ℚ) (uErr uDelay uBurn uCor : Nat → ℚ)
    (jitter : Int) (exn : Option String) (dropOpt : Option Fault)
    (active : List Fault) (rt : WorkerRt) : HandleResult × WorkerRt :=
  match pick_error uErr active with
  | some ef =>
      (.errorFault (ef.spec.status_code.getD 500) (ef.spec.message.getD "fault: error"),
       { rt with fail := rt.fail + 1, last_error := some "fault_error" })
  | none =>
    if cfg.capacity ≤ rt.inflight then
      (.overCapacity, { rt with fail := rt.fail + 1, last_error := some "over_capacity" })
    else
      handleAdmitted cfg now uDelay uBurn uCor jitter exn dropOpt active
        { rt with inflight := rt.inflight + 1 }

/-- `POST /handle` (worker/app.py lines 230-319): bump `total`, snapshot the
active faults (purging the registry), evaluate a `drop` fault with mode
`"503"` before anything else, then the rest of the pipeline.  Returns the
response, the new counters and the purged fault registry. -/
def handleWorker (cfg : WorkerConfig) (now : ℚ)
    (uDrop uErr uDelay uBurn uCor : Nat → ℚ) (jitter : Int) (exn : Option String)
    (rt : WorkerRt) (faults : List Fault) :
    HandleResult × WorkerRt × List Fault :=
  let rt1 := { rt with total := rt.total + 1 }
  let active := snapshot_active now faults
  match pick_drop uDrop active with
  | some d =>
    if d.spec.mode.getD "503" = "503" then
      (.dropRejected (d.spec.status_code.getD 503),
       { rt1 with fail := rt1.fail + 1, last_error := some "fault_drop_503" },
       active)
    else
      let r := handleRest cfg now uErr uDelay uBurn uCor jitter exn (some d) active rt1
      (r.1, r.2, active)
  | none =>
      let r := handleRest cfg now uErr uDelay uBurn uCor jitter exn none active rt1
      (r.1, r.2, active)

/-- Classification of handler results: those produced before the admission
check (drop-503 rejection, error fault, over-capacity). -/
def HandleResult.preAdmission : HandleResult → Bool
  | .dropRejected _ => true
  | .errorFault _ _ => true
  | .overCapacity => true
  | _ => false

/-- The `auto_weight` of the worker at index `j` (0 when absent). -/
def autoWeightAt (ws : List WorkerState) (j : Nat) : Int :=
  (((ws.get? j).bind WorkerState.auto_weight).getD 0)

theorem modifyIdx_length (f : α → α) (i : Nat) (l : List α) :
    (modifyIdx f i l).length = l.length := by
  induction l generalizing i with
  | nil => cases i <;> rfl
  | cons x xs ih => cases i <;> simp [modifyIdx, ih]

theorem get?_modifyIdx (f : α → α) (i j : Nat) (l : List α) :
    (modifyIdx f i l).get? j = if i = j then (l.get? j).map f else l.get? j := by
  induction l generalizing i j with
  | nil => simp [modifyIdx]
  | cons x xs ih =>
    cases i with
    | zero => cases j <;> simp [modifyIdx]
    | succ i =>
      cases j with
      | zero => simp [modifyIdx]
      | succ j => simpa [modifyIdx, Nat.succ_inj] using ih i j

theorem bumpAll_cons (i : Nat) (idxs : List Nat) (ws : List WorkerState) :
    bumpAll (i :: idxs) ws = bumpAll idxs (modifyIdx bumpOne i ws) := rfl

theorem get?_bumpAll_not_mem {j : Nat} :
    ∀ {idxs : List Nat} (ws : List WorkerState), j ∉ idxs →
      (bumpAll idxs ws).get? j = ws.get? j := by
  intro idxs
  induction idxs with
  | nil => intro ws _; rfl
  | cons i rest ih =>
    intro ws hj
    rw [bumpAll_cons, ih _ (fun h => hj (List.mem_cons_of_mem _ h)),
      get?_modifyIdx]
    have : i ≠ j := fun h => hj (h ▸ List.mem_cons_self i rest)
    simp [this]

theorem get?_bumpAll_mem {j : Nat} :
    ∀ {idxs : List Nat} (ws : List WorkerState), idxs.Nodup → j ∈ idxs →
      (bumpAll idxs ws).get? j = (ws.get? j).map bumpOne := by
  intro idxs
  induction idxs with
  | nil => intro ws _ h; cases h
  | cons i rest ih =>
    intro ws hnd hj
    rcases List.mem_cons.mp hj with rfl | hj
    · rw [bumpAll_cons, get?_bumpAll_not_mem _ (List.nodup_cons.mp hnd).1,
        get?_modifyIdx]
      simp
    · have hji : j ≠ i := fun h => (List.nodup_cons.mp hnd).1 (h ▸ hj)
      have hij : i ≠ j := fun h => hji h.symm
      rw [bumpAll_cons, ih _ (List.nodup_cons.mp hnd).2 hj, get?_modifyIdx]
      simp [hij]

theorem cwAt_bumpAll_not_mem {j : Nat} {idxs : List Nat} (ws : List WorkerState)
    (h : j ∉ idxs) : cwAt (bumpAll idxs ws) j = cwAt ws j := by
  rw [cwAt, get?_bumpAll_not_mem ws h, cwAt]

theorem cwAt_bumpAll_mem {j : Nat} {idxs : List Nat} (ws : List WorkerState)
    (hnd : idxs.Nodup) (h : j ∈ idxs) :
    cwAt (bumpAll idxs ws) j = cwAt ws j + effAt ws j := by
  rw [cwAt, get?_bumpAll_mem ws hnd h, cwAt, effAt]
  cases ws.get? j <;> simp [bumpOne]

theorem cwAt_modifyIdx_bump_self (ws : List WorkerState) (i : Nat) :
    cwAt (modifyIdx bumpOne i ws) i = cwAt ws i + effAt ws i := by
  rw [cwAt, get?_modifyIdx, if_pos rfl, cwAt, effAt]
  cases ws.get? i <;> simp [bumpOne]

theorem cwAt_modifyIdx_bump_ne (ws : List WorkerState) {i j : Nat} (h : i ≠ j) :
    cwAt (modifyIdx bumpOne i ws) j = cwAt ws j := by
  rw [cwAt, get?_modifyIdx]
  simp [h, cwAt]

/-- Invariant of the selection loop (smooth_wrr.py lines 22-26): starting the
loop with best `b` and the workers up to and including `b` already bumped,
the loop bumps every remaining index and ends with the first index of
maximal bumped `current_weight`. -/
theorem chooseFold_best :
    ∀ (idxs : List Nat) (ws : List WorkerState) (b : Nat),
      (b :: idxs).Pairwise (· < ·) →
      ∃ r, (idxs.foldl chooseStep (ws, some b)).2 = some r ∧
        r ∈ b :: idxs ∧
        (∀ j ∈ b :: idxs, cwAt (bumpAll idxs ws) j ≤ cwAt (bumpAll idxs ws) r) ∧
        (∀ j ∈ b :: idxs, j < r → cwAt (bumpAll idxs ws) j < cwAt (bumpAll idxs ws) r) := by
  intro idxs
  induction idxs with
  | nil =>
    intro ws b _
    refine ⟨b, rfl, List.mem_singleton_self b, ?_, ?_⟩
    · intro j hj
      rw [List.mem_singleton.mp hj]
    · intro j hj hlt
      rw [List.mem_singleton.mp hj] at hlt
      exact absurd hlt (lt_irrefl b)
  | cons i rest ih =>
    intro ws b hpw
    have hbi : b < i := (List.pairwise_cons.mp hpw).1 i (List.mem_cons_self i rest)
    have hirest : ∀ j ∈ rest, i < j :=
      (List.pairwise_cons.mp (List.pairwise_cons.mp hpw).2).1
    have hbrest : ∀ j ∈ rest, b < j :=
      fun j hj => (List.pairwise_cons.mp hpw).1 j (List.mem_cons_of_mem _ hj)
    have hrestpw : rest.Pairwise (· < ·) :=
      (List.pairwise_cons.mp (List.pairwise_cons.mp hpw).2).2
    set ws' := modifyIdx bumpOne i ws with hws'
    set b' := if cwAt ws' b < cwAt ws' i then i else b with hb'
    have hstep : chooseStep (ws, some b) i = (ws', some b') := by
      simp only [chooseStep, ← hws', hb', apply_ite some]
    have hb'pw : (b' :: rest).Pairwise (· < ·) := by
      rw [List.pairwise_cons]
      refine ⟨?_, hrestpw⟩
      intro j hj
      rw [hb']
      split
      · exact hirest j hj
      · exact hbrest j hj
    obtain ⟨r, hr, hrmem, hrmax, hrfirst⟩ := ih ws' b' hb'pw
    have hL : bumpAll rest ws' = bumpAll (i :: rest) ws := by
      rw [bumpAll_cons, hws']
    rw [hL] at hrmax hrfirst
    have hinotrest : i ∉ rest := fun h => lt_irrefl i (hirest i h)
    have hbnotrest : b ∉ rest := fun h => lt_irrefl b (hbrest b h)
    have hfi : cwAt (bumpAll (i :: rest) ws) i = cwAt ws' i := by
      rw [← hL]
      exact cwAt_bumpAll_not_mem ws' hinotrest
    have hfb : cwAt (bumpAll (i :: rest) ws) b = cwAt ws' b := by
      rw [← hL]
      exact cwAt_bumpAll_not_mem ws' hbnotrest
    have hge : cwAt (bumpAll (i :: rest) ws) b ≤ cwAt (bumpAll (i :: rest) ws) b' ∧
        cwAt (bumpAll (i :: rest) ws) i ≤ cwAt (bumpAll (i :: rest) ws) b' := by
      rw [hb']
      split
      · rename_i hcmp
        rw [hfi, hfb]
        exact ⟨le_of_lt hcmp, le_rfl⟩
      · rename_i hcmp
        rw [hfi, hfb]
        exact ⟨le_rfl, not_lt.mp hcmp⟩
    refine ⟨r, ?_, ?_, ?_, ?_⟩
    · rw [List.foldl_cons, hstep]
      exact hr
    · rcases List.mem_cons.mp hrmem with h1 | h2
      · rw [h1, hb']
        split
        · exact List.mem_cons_of_mem _ (List.mem_cons_self i rest)
        · exact List.mem_cons_self b _
      · exact List.mem_cons_of_mem _ (List.mem_cons_of_mem _ h2)
    · intro j hj
      rcases List.mem_cons.mp hj with h1 | hj2
      · rw [h1]
        exact le_trans hge.1 (hrmax b' (List.mem_cons_self b' rest))
      rcases List.mem_cons.mp hj2 with h2 | hj3
      · rw [h2]
        exact le_trans hge.2 (hrmax b' (List.mem_cons_self b' rest))
      · exact hrmax j (List.mem_cons_of_mem _ hj3)
    · intro j hj hjr
      have hb'r : b' = r ∨ (b' < r ∧ r ∈ rest) := by
        rcases List.mem_cons.mp hrmem with h1 | h2
        · exact Or.inl h1.symm
        · exact Or.inr ⟨(List.pairwise_cons.mp hb'pw).1 r h2, h2⟩
      rcases List.mem_cons.mp hj with h1 | hj2
      · rw [h1] at hjr ⊢
        rcases hb'r with hbeq | ⟨hlt, _⟩
        · rw [← hbeq] at hjr ⊢
          rw [hb'] at hjr ⊢
          by_cases hcmp : cwAt ws' b < cwAt ws' i
          · simp only [if_pos hcmp] at hjr ⊢
            rw [hfi, hfb]
            exact hcmp
          · simp only [if_neg hcmp] at hjr
            exact absurd hjr (lt_irrefl b)
        · exact lt_of_le_of_lt hge.1 (hrfirst b' (List.mem_cons_self b' rest) hlt)
      rcases List.mem_cons.mp hj2 with h2 | hj3
      · rw [h2] at hjr ⊢
        rcases hb'r with hbeq | ⟨hlt, _⟩
        · rw [← hbeq] at hjr
          rw [hb'] at hjr
          by_cases hcmp : cwAt ws' b < cwAt ws' i
          · simp only [if_pos hcmp] at hjr
            exact absurd hjr (lt_irrefl i)
          · simp only [if_neg hcmp] at hjr
            exact absurd hjr (Nat.lt_asymm hbi)
        · exact lt_of_le_of_lt hge.2 (hrfirst b' (List.mem_cons_self b' rest) hlt)
      · exact hrfirst j (List.mem_cons_of_mem _ hj3) hjr

theorem chooseFold_fst :
    ∀ (idxs : List Nat) (acc : List WorkerState × Option Nat),
      (idxs.foldl chooseStep acc).1 = bumpAll idxs acc.1 := by
  intro idxs
  induction idxs with
  | nil => intro acc; rfl
  | cons i rest ih =>
    intro acc
    rw [List.foldl_cons, ih, bumpAll_cons]
    rfl

theorem eligIdx_pairwise (now : ℚ) (ws : List WorkerState) :
    (eligIdx now ws).Pairwise (· < ·) :=
  List.Pairwise.sublist (List.filter_sublist _) (List.pairwise_lt_range _)

theorem eligIdx_nodup (now : ℚ) (ws : List WorkerState) :
    (eligIdx now ws).Nodup :=
  (eligIdx_pairwise now ws).imp Nat.ne_of_lt

theorem mem_eligIdx {now : ℚ} {ws : List WorkerState} {i : Nat} :
    i ∈ eligIdx now ws ↔ ∃ w, ws.get? i = some w ∧ eligible now w := by
  rw [eligIdx, List.mem_filter, List.mem_range]
  constructor
  · rintro ⟨hlen, hcond⟩
    cases hw : ws.get? i with
    | none => rw [hw] at hcond; exact absurd hcond (by simp)
    | some w => rw [hw] at hcond; exact ⟨w, rfl, hcond⟩
  · rintro ⟨w, hw, hel⟩
    have hlen : i < ws.length := by
      by_contra h
      rw [List.get?_eq_none.mpr (le_of_not_lt h)] at hw
      cases hw
    exact ⟨hlen, by rw [hw]; exact hel⟩

/-- C1: `SmoothWRR.choose` returns "none" exactly when the set of eligible
workers is empty; otherwise it adds `effective_weight(w)` to
`current_weight(w)` for every eligible `w`, returns the eligible worker of
maximal updated `current_weight` (ties broken by registry order, first
wins), subtracts the eligible total `T` from the winner's `current_weight`
and increments the winner's `assigned` by 1. -/
theorem C1_smooth_wrr_choose (now : ℚ) (ws : List WorkerState) :
    ((choose now ws).1 = none ↔ eligIdx now ws = []) ∧
    ((choose now ws).1 = none → (choose now ws).2 = ws) ∧
    ∀ b, (choose now ws).1 = some b →
      b ∈ eligIdx now ws ∧
      (∀ j ∈ eligIdx now ws,
        cwAt (bumpAll (eligIdx now ws) ws) j ≤ cwAt (bumpAll (eligIdx now ws) ws) b) ∧
      (∀ j ∈ eligIdx now ws, j < b →
        cwAt (bumpAll (eligIdx now ws) ws) j < cwAt (bumpAll (eligIdx now ws) ws) b) ∧
      (choose now ws).2
        = modifyIdx (fun w => { w with current_weight := w.current_weight - wrrTotal now ws,
                                       assigned := w.assigned + 1 }) b
            (bumpAll (eligIdx now ws) ws) ∧
      (∀ j, j ∉ eligIdx now ws → (choose now ws).2.get? j = ws.get? j) ∧
      (∀ j ∈ eligIdx now ws, j ≠ b → (choose now ws).2.get? j = (ws.get? j).map bumpOne) ∧
      (choose now ws).2.get? b = (ws.get? b).map (fun w =>
        { w with current_weight := w.current_weight + w.effective_weight - wrrTotal now ws,
                 assigned := w.assigned + 1 }) := by
  cases hE : eligIdx now ws with
  | nil =>
    have hchoose : choose now ws = (none, ws) := by
      simp only [choose, hE, List.isEmpty_nil, if_true]
    refine ⟨by simp [hchoose, hE], by simp [hchoose], ?_⟩
    intro b hb
    rw [hchoose] at hb
    cases hb
  | cons i0 rest =>
    have hpw : (i0 :: rest).Pairwise (· < ·) := hE ▸ eligIdx_pairwise now ws
    have hnd : (i0 :: rest).Nodup := hE ▸ eligIdx_nodup now ws
    obtain ⟨r, hr, hrmem, hrmax, hrfirst⟩ :=
      chooseFold_best rest (modifyIdx bumpOne i0 ws) i0 hpw
    rw [← bumpAll_cons] at hrmax hrfirst
    have hstep0 : chooseStep (ws, none) i0 = (modifyIdx bumpOne i0 ws, some i0) := rfl
    have hfold : chooseFold (i0 :: rest) ws = (bumpAll (i0 :: rest) ws, some r) := by
      rw [chooseFold, List.foldl_cons, hstep0]
      refine Prod.ext ?_ ?_
      · rw [chooseFold_fst, bumpAll_cons]
      · exact hr
    have hchoose : choose now ws
        = (some r,
            modifyIdx (fun w => { w with current_weight := w.current_weight - wrrTotal now ws,
                                         assigned := w.assigned + 1 }) r
              (bumpAll (i0 :: rest) ws)) := by
      simp only [choose, hE, List.isEmpty_cons, Bool.false_eq_true, if_false, hfold]
    refine ⟨by simp [hchoose, hE], by simp [hchoose], ?_⟩
    intro b hb
    rw [hchoose] at hb
    have hrb : r = b := Option.some.inj hb
    subst hrb
    have hrincons : r ∈ i0 :: rest := hrmem
    refine ⟨hE ▸ hrincons, ?_, ?_, ?_, ?_, ?_, ?_⟩
    · intro j hj
      exact hrmax j hj
    · intro j hj hlt
      exact hrfirst j hj hlt
    · simp only [hchoose]
    · intro j hj
      simp only [hchoose]
      rw [get?_modifyIdx]
      have hrj : r ≠ j := fun h => hj (h ▸ hrincons)
      rw [if_neg hrj]
      exact get?_bumpAll_not_mem ws hj
    · intro j hj hjr
      simp only [hchoose]
      rw [get?_modifyIdx, if_neg (fun h => hjr h.symm)]
      exact get?_bumpAll_mem ws hnd hj
    · simp only [hchoose]
      rw [get?_modifyIdx, if_pos rfl, get?_bumpAll_mem ws hnd hrincons]
      cases ws.get? r <;> simp [bumpOne]


/-- Concrete run of C1 on a two-worker registry with effective weights 5 and 1:
worker 0 is chosen, ends with `current_weight = 5 - 6 = -1` and `assigned = 1`. -/
theorem C1_smooth_wrr_choose_witness :
    0 ∈ eligIdx 0 [{ id := "a", url := "u1", effective_weight := 5 },
                   { id := "b", url := "u2", effective_weight := 1 }] ∧
    (choose 0 [{ id := "a", url := "u1", effective_weight := 5 },
               { id := "b", url := "u2", effective_weight := 1 }]).2.get? 0
      = some { id := "a", url := "u1", effective_weight := 5,
               current_weight := -1, assigned := 1 } := by
  have h := (C1_smooth_wrr_choose 0
    [{ id := "a", url := "u1", effective_weight := 5 },
     { id := "b", url := "u2", effective_weight := 1 }]).2.2 0 (by decide)
  exact ⟨h.1, by decide⟩


theorem recompute_effective_spec (mode : String) (w : WorkerState) :
    (recompute_effective mode w).effective_weight
        = max 1 (modeOverride mode (recompute_effective mode w)) ∧
    1 ≤ (recompute_effective mode w).effective_weight := by
  constructor
  · simp [recompute_effective, modeOverride]
  · exact le_max_left _ _

/-- C4: after `recompute_effective(mode)` a record's `effective_weight`
equals the mode-specific override clamped to at least 1 (hence is ≥ 1), and
the invariant survives every weight-touching operation: per-worker health
refresh, the auto-weight tick, manual-weight set/clear, and mode switch. -/
theorem C4_effective_weight_invariant :
    (∀ (mode : String) (w : WorkerState),
      (recompute_effective mode w).effective_weight
          = max 1 (modeOverride mode (recompute_effective mode w)) ∧
      1 ≤ (recompute_effective mode w).effective_weight) ∧
    (∀ (mode : String) (now : ℚ) (res : Except String HealthData) (w : WorkerState),
      w.effective_weight = max 1 (modeOverride mode w) →
      (healthApply mode now res w).effective_weight
          = max 1 (modeOverride mode (healthApply mode now res w)) ∧
      1 ≤ (healthApply mode now res w).effective_weight) ∧
    (∀ (amax : Int) (mode : String) (ws : List WorkerState),
      (∀ w ∈ ws, w.effective_weight = max 1 (modeOverride mode w)) →
      ∀ w2 ∈ autoTick amax mode ws,
        w2.effective_weight = max 1 (modeOverride mode w2) ∧ 1 ≤ w2.effective_weight) ∧
    (∀ (mode : String) (ws : List WorkerState), ∀ w2 ∈ setWeightMode mode ws,
      w2.effective_weight = max 1 (modeOverride mode w2) ∧ 1 ≤ w2.effective_weight) ∧
    (∀ (mode : String) (weight : Int) (w : WorkerState),
      w.effective_weight = max 1 (modeOverride mode w) →
      (setManualWeight mode weight w).effective_weight
          = max 1 (modeOverride mode (setManualWeight mode weight w)) ∧
      1 ≤ (setManualWeight mode weight w).effective_weight) ∧
    (∀ (mode : String) (w : WorkerState),
      (clearManualWeight mode w).effective_weight
          = max 1 (modeOverride mode (clearManualWeight mode w)) ∧
      1 ≤ (clearManualWeight mode w).effective_weight) := by
  have hinv : ∀ (mode : String) (w : WorkerState),
      w.effective_weight = max 1 (modeOverride mode w) → 1 ≤ w.effective_weight := by
    intro mode w h
    rw [h]
    exact le_max_left _ _
  refine ⟨recompute_effective_spec, ?_, ?_, ?_, ?_, ?_⟩
  · intro mode now res w h
    cases res with
    | error e =>
      refine ⟨?_, ?_⟩
      · simpa [healthApply, modeOverride] using h
      · exact hinv mode _ (by simpa [healthApply, modeOverride] using h)
    | ok d =>
      rcases d with ⟨wid, wt, bl⟩
      cases wid <;> cases wt <;> cases bl <;>
        exact recompute_effective_spec mode _
  · intro amax mode ws h w2 hw2
    rw [autoTick] at hw2
    split at hw2
    · obtain ⟨w1, _, rfl⟩ := List.mem_map.mp hw2
      exact recompute_effective_spec mode w1
    · exact ⟨h w2 hw2, hinv mode w2 (h w2 hw2)⟩
  · intro mode ws w2 hw2
    obtain ⟨w1, _, rfl⟩ := List.mem_map.mp hw2
    exact recompute_effective_spec mode w1
  · intro mode weight w h
    rw [setManualWeight]
    split
    · exact recompute_effective_spec mode _
    · exact ⟨h, hinv mode w h⟩
  · intro mode w
    exact recompute_effective_spec mode _

/-- Concrete run of C4: a freshly built record in manual mode satisfies the
invariant, and it survives a failed health probe. -/
theorem C4_effective_weight_invariant_witness :
    (healthApply "manual" 0 (.error "boom") { id := "a", url := "u" }).effective_weight
        = max 1 (modeOverride "manual"
            (healthApply "manual" 0 (.error "boom") { id := "a", url := "u" })) ∧
    1 ≤ (healthApply "manual" 0 (.error "boom")
          { id := "a", url := "u" }).effective_weight :=
  C4_effective_weight_invariant.2.1 "manual" 0 (.error "boom")
    { id := "a", url := "u" } (by decide)


/-- C2 (code bug): the fault validator accepts well-formed `delay`, `drop`
and `corrupt` payloads, but rejects the kinds `error` and `cpu_burn`
outright — the discriminated union `FaultCreate` has no variants for them —
even though the worker handler itself reacts to faults of those kinds. -/
theorem C2_fault_add_missing_kinds :
    validateFaultCreate { kind := "error", status_code := some 500,
                          message := some "boom", duration_sec := some 5 } = none ∧
    validateFaultCreate { kind := "cpu_burn", burn_ms := some 10,
                          duration_sec := some 5 } = none ∧
    (validateFaultCreate { kind := "delay", delay_ms := some 10,
                           duration_sec := some 5 }).isSome = true ∧
    (validateFaultCreate { kind := "drop", mode := some "503",
                           duration_sec := some 5 }).isSome = true ∧
    (validateFaultCreate { kind := "corrupt", mode := some "invalid_json",
                           duration_sec := some 5 }).isSome = true ∧
    pick_error (fun _ => 0)
      [{ id := "f1", kind := "error", created_at := 0, expires_at := none,
         spec := { status_code := some 500, message := some "boom" } }]
      = some { id := "f1", kind := "error", created_at := 0, expires_at := none,
               spec := { status_code := some 500, message := some "boom" } } ∧
    sum_cpu_burn_ms (fun _ => 0)
      [{ id := "f2", kind := "cpu_burn", created_at := 0, expires_at := none,
         spec := { burn_ms := some 10 } }] = 10 := by
  refine ⟨rfl, rfl, ?_, ?_, ?_, by decide, by decide⟩
  · rw [validateFaultCreate]
    norm_num [validProb, validDuration]
  · rw [validateFaultCreate]
    norm_num [validProb, validDuration]
    decide
  · rw [validateFaultCreate]
    norm_num [validProb, validDuration]
    decide

/-- C6: a fault added with a duration is invisible to list and snapshot at
any wall-clock time strictly after `created_at + duration`; both purge
expired faults first, and a purged registry never holds a fault whose
expiry is in the past. -/
theorem C6_fault_ttl (reg : List Fault) (fc : FaultCreate) (fid : String)
    (now0 D now : ℚ) (hdur : fc.duration = some D) (hnow : now0 + D < now) :
    (addFault now0 fid fc reg).1 ∉ list_views now (addFault now0 fid fc reg).2 ∧
    (addFault now0 fid fc reg).1 ∉ snapshot_active now (addFault now0 fid fc reg).2 ∧
    (∀ fs, list_views now fs = purge_expired now fs) ∧
    (∀ fs, snapshot_active now fs = purge_expired now fs) ∧
    (∀ (fs : List Fault) (f : Fault), f ∈ purge_expired now fs →
      ∀ e, f.expires_at = some e → ¬ e < now) := by
  have hexp : (addFault now0 fid fc reg).1.expires_at = some (now0 + D) := by
    simp [addFault, hdur]
  refine ⟨?_, ?_, fun fs => rfl, fun fs => rfl, ?_⟩
  · intro hmem
    rw [list_views, purge_expired] at hmem
    have hkeep := (List.mem_filter.mp hmem).2
    rw [hexp] at hkeep
    simp only [decide_eq_true_eq] at hkeep
    exact absurd hkeep (lt_asymm hnow)
  · intro hmem
    rw [snapshot_active, purge_expired] at hmem
    have hkeep := (List.mem_filter.mp hmem).2
    rw [hexp] at hkeep
    simp only [decide_eq_true_eq] at hkeep
    exact absurd hkeep (lt_asymm hnow)
  · intro fs f hmem e he
    rw [purge_expired] at hmem
    have hkeep := (List.mem_filter.mp hmem).2
    rw [he] at hkeep
    simp only [decide_eq_true_eq] at hkeep
    exact lt_asymm hkeep

/-- Concrete run of C6: a delay fault with duration 1 added at time 0 is
absent from the list view at time 2. -/
theorem C6_fault_ttl_witness :
    (addFault 0 "abcdef123456" (.delay 10 1 (some 1)) []).1
      ∉ list_views 2 (addFault 0 "abcdef123456" (.delay 10 1 (some 1)) []).2 :=
  (C6_fault_ttl [] (.delay 10 1 (some 1)) "abcdef123456" 0 1 2
    rfl (by rw [zero_add]; exact one_lt_two)).1


/-- C8: on a 2xx upstream response the dispatch engine applies
`record_success` to the chosen worker: `ok` is incremented, `last_error`
cleared, and `avg_latency_ms` follows the EWMA rule — seeded with the
sample itself when the previous value is ≤ 0, else
`α·sample + (1−α)·prev`. -/
theorem C8_ewma_success (alpha disableSec : ℚ) (oracle : Nat → ForwardOutcome)
    (timeAt : Nat → ℚ) :
    (∀ (ms : ℚ) (w : WorkerState),
      (record_success alpha ms w).ok = w.ok + 1 ∧
      (record_success alpha ms w).last_error = none ∧
      (w.avg_latency_ms ≤ 0 → (record_success alpha ms w).avg_latency_ms = ms) ∧
      (0 < w.avg_latency_ms →
        (record_success alpha ms w).avg_latency_ms
          = alpha * ms + (1 - alpha) * w.avg_latency_ms) ∧
      (record_success alpha ms w).fail = w.fail ∧
      (record_success alpha ms w).assigned = w.assigned) ∧
    (∀ (remaining attempt : Nat) (lastErr : Option String)
       (ws ws1 : List WorkerState) (i : Nat) (status : Int) (ms : ℚ),
      choose (timeAt attempt) ws = (some i, ws1) →
      oracle attempt = .resp status ms →
      200 ≤ status → status < 300 →
      dispatchGo alpha disableSec oracle timeAt (remaining + 1) attempt lastErr ws
        = (.ok i attempt status, modifyIdx (record_success alpha ms) i ws1)) := by
  constructor
  · intro ms w
    refine ⟨rfl, rfl, ?_, ?_, rfl, rfl⟩
    · intro h
      simp [record_success, ewma, h]
    · intro h
      simp [record_success, ewma, not_le.mpr h]
  · intro remaining attempt lastErr ws ws1 i status ms hchoose horacle h1 h2
    simp [dispatchGo, hchoose, horacle, h1, h2]

/-- Concrete run of C8: a single fresh worker, one 2xx response with a 5 ms
sample; the dispatch loop returns the 2xx result and seeds the EWMA. -/
theorem C8_ewma_success_witness :
    dispatchGo 0 0 (fun _ => .resp 200 5) (fun _ => 0) 1 1 none
        [{ id := "a", url := "u" }]
      = (.ok 0 1 200,
         modifyIdx (record_success 0 5) 0
           (choose 0 [{ id := "a", url := "u" }]).2) :=
  (C8_ewma_success 0 0 (fun _ => .resp 200 5) (fun _ => 0)).2 0 1 none
    [{ id := "a", url := "u" }] (choose 0 [{ id := "a", url := "u" }]).2
    0 200 5 (by decide) rfl (by decide) (by decide)


/-- C3: the dispatch loop's error handling. `choose = none` yields the 503
result with no retry; a transport exception or a 5xx records the failure on
the chosen worker, sets its disable window and continues with the next
attempt; any other non-2xx records the failure and surfaces the response
without disabling or retrying; an exhausted loop yields the 502 result
carrying the last error; `record_failure` bumps `fail` and tags
`last_error` without touching `disabled_until`, and `disable_temporarily`
sets `disabled_until = now + DISABLE_ON_FAIL_SEC`. -/
theorem C3_dispatch_error_handling (alpha disableSec : ℚ)
    (oracle : Nat → ForwardOutcome) (timeAt : Nat → ℚ) :
    (∀ (remaining attempt : Nat) (lastErr : Option String)
       (ws ws1 : List WorkerState),
      choose (timeAt attempt) ws = (none, ws1) →
      dispatchGo alpha disableSec oracle timeAt (remaining + 1) attempt lastErr ws
        = (.noEligible, ws1)) ∧
    (∀ (remaining attempt : Nat) (lastErr : Option String)
       (ws ws1 : List WorkerState) (i : Nat) (e : String),
      choose (timeAt attempt) ws = (some i, ws1) →
      oracle attempt = .exn e →
      dispatchGo alpha disableSec oracle timeAt (remaining + 1) attempt lastErr ws
        = dispatchGo alpha disableSec oracle timeAt remaining (attempt + 1)
            (some ("forward: " ++ e))
            (modifyIdx (disable_temporarily (timeAt attempt) disableSec) i
              (modifyIdx (record_failure ("forward: " ++ e)) i ws1))) ∧
    (∀ (remaining attempt : Nat) (lastErr : Option String)
       (ws ws1 : List WorkerState) (i : Nat) (status : Int) (ms : ℚ),
      choose (timeAt attempt) ws = (some i, ws1) →
      oracle attempt = .resp status ms →
      500 ≤ status →
      dispatchGo alpha disableSec oracle timeAt (remaining + 1) attempt lastErr ws
        = dispatchGo alpha disableSec oracle timeAt remaining (attempt + 1)
            (some ("http " ++ toString status))
            (modifyIdx (disable_temporarily (timeAt attempt) disableSec) i
              (modifyIdx (record_failure ("http " ++ toString status)) i ws1))) ∧
    (∀ (remaining attempt : Nat) (lastErr : Option String)
       (ws ws1 : List WorkerState) (i : Nat) (status : Int) (ms : ℚ),
      choose (timeAt attempt) ws = (some i, ws1) →
      oracle attempt = .resp status ms →
      ¬ (200 ≤ status ∧ status < 300) → status < 500 →
      dispatchGo alpha disableSec oracle timeAt (remaining + 1) attempt lastErr ws
        = (.passthrough i attempt status,
           modifyIdx (record_failure ("http " ++ toString status)) i ws1)) ∧
    (∀ (attempt : Nat) (lastErr : Option String) (ws : List WorkerState),
      dispatchGo alpha disableSec oracle timeAt 0 attempt lastErr ws
        = (.allFailed lastErr, ws)) ∧
    (∀ (e : String) (w : WorkerState),
      (record_failure e w).fail = w.fail + 1 ∧
      (record_failure e w).last_error = some e ∧
      (record_failure e w).disabled_until = w.disabled_until) ∧
    (∀ (now s : ℚ) (w : WorkerState),
      (disable_temporarily now s w).disabled_until = now + s) := by
  refine ⟨?_, ?_, ?_, ?_, fun attempt lastErr ws => rfl,
    fun e w => ⟨rfl, rfl, rfl⟩, fun now s w => rfl⟩
  · intro remaining attempt lastErr ws ws1 hchoose
    simp [dispatchGo, hchoose]
  · intro remaining attempt lastErr ws ws1 i e hchoose horacle
    simp [dispatchGo, hchoose, horacle]
  · intro remaining attempt lastErr ws ws1 i status ms hchoose horacle h5
    have hno2 : ¬ (200 ≤ status ∧ status < 300) := by omega
    simp [dispatchGo, hchoose, horacle, hno2, h5]
  · intro remaining attempt lastErr ws ws1 i status ms hchoose horacle hno2 h4
    simp [dispatchGo, hchoose, horacle, hno2, not_le.mpr h4]

/-- Concrete run of C3 (the 4xx branch): one worker, one 404 response; the
response is surfaced with the failure recorded and no retry. -/
theorem C3_dispatch_error_handling_witness :
    dispatchGo 0 0 (fun _ => .resp 404 1) (fun _ => 0) 2 1 none
        [{ id := "a", url := "u" }]
      = (.passthrough 0 1 404,
         modifyIdx (record_failure ("http " ++ toString (404 : Int))) 0
           (choose 0 [{ id := "a", url := "u" }]).2) :=
  (C3_dispatch_error_handling 0 0 (fun _ => .resp 404 1)
      (fun _ => 0)).2.2.2.1 1 1 none
    [{ id := "a", url := "u" }] (choose 0 [{ id := "a", url := "u" }]).2
    0 404 1 (by decide) rfl (by decide) (by decide)


theorem handleTry_spec (cfg : WorkerConfig) (now : ℚ) (uDelay uBurn uCor : Nat → ℚ)
    (jitter : Int) (exn : Option String) (dropOpt : Option Fault)
    (active : List Fault) (rt : WorkerRt) :
    (handleTry cfg now uDelay uBurn uCor jitter exn dropOpt active rt).2.total = rt.total ∧
    (handleTry cfg now uDelay uBurn uCor jitter exn dropOpt active rt).2.inflight
        = rt.inflight ∧
    (((handleTry cfg now uDelay uBurn uCor jitter exn dropOpt active rt).2.ok = rt.ok + 1 ∧
      (handleTry cfg now uDelay uBurn uCor jitter exn dropOpt active rt).2.fail = rt.fail) ∨
     ((handleTry cfg now uDelay uBurn uCor jitter exn dropOpt active rt).2.ok = rt.ok ∧
      (handleTry cfg now uDelay uBurn uCor jitter exn dropOpt active rt).2.fail = rt.fail + 1)) ∧
    (handleTry cfg now uDelay uBurn uCor jitter exn dropOpt active rt).1.preAdmission
        = false := by
  cases exn with
  | some e => exact ⟨rfl, rfl, Or.inr ⟨rfl, rfl⟩, rfl⟩
  | none =>
    dsimp only [handleTry]
    split
    · exact ⟨rfl, rfl, Or.inr ⟨rfl, rfl⟩, rfl⟩
    · cases hc : pick_corrupt uCor active with
      | some c => exact ⟨rfl, rfl, Or.inr ⟨rfl, rfl⟩, rfl⟩
      | none => exact ⟨rfl, rfl, Or.inl ⟨rfl, rfl⟩, rfl⟩

theorem handleAdmitted_spec (cfg : WorkerConfig) (now : ℚ)
    (uDelay uBurn uCor : Nat → ℚ) (jitter : Int) (exn : Option String)
    (dropOpt : Option Fault) (active : List Fault) (rt : WorkerRt) :
    (handleAdmitted cfg now uDelay uBurn uCor jitter exn dropOpt active rt).2.total
        = rt.total ∧
    (handleAdmitted cfg now uDelay uBurn uCor jitter exn dropOpt active rt).2.inflight
        = max 0 (rt.inflight - 1) ∧
    (((handleAdmitted cfg now uDelay uBurn uCor jitter exn dropOpt active rt).2.ok
          = rt.ok + 1 ∧
      (handleAdmitted cfg now uDelay uBurn uCor jitter exn dropOpt active rt).2.fail
          = rt.fail) ∨
     ((handleAdmitted cfg now uDelay uBurn uCor jitter exn dropOpt active rt).2.ok
          = rt.ok ∧
      (handleAdmitted cfg now uDelay uBurn uCor jitter exn dropOpt active rt).2.fail
          = rt.fail + 1)) ∧
    (handleAdmitted cfg now uDelay uBurn uCor jitter exn dropOpt
        active rt).1.preAdmission = false := by
  obtain ⟨h1, h2, h3, h4⟩ := handleTry_spec cfg now uDelay uBurn uCor jitter exn
    dropOpt active rt
  rw [handleAdmitted]
  exact ⟨h1, by rw [h2], h3, h4⟩

theorem handleRest_spec (cfg : WorkerConfig) (now : ℚ)
    (uErr uDelay uBurn uCor : Nat → ℚ) (jitter : Int) (exn : Option String)
    (dropOpt : Option Fault) (active : List Fault) (rt : WorkerRt) :
    (handleRest cfg now uErr uDelay uBurn uCor jitter exn dropOpt active rt).2.total
        = rt.total ∧
    (((handleRest cfg now uErr uDelay uBurn uCor jitter exn dropOpt active rt).2.ok
          = rt.ok + 1 ∧
      (handleRest cfg now uErr uDelay uBurn uCor jitter exn dropOpt active rt).2.fail
          = rt.fail) ∨
     ((handleRest cfg now uErr uDelay uBurn uCor jitter exn dropOpt active rt).2.ok
          = rt.ok ∧
      (handleRest cfg now uErr uDelay uBurn uCor jitter exn dropOpt active rt).2.fail
          = rt.fail + 1)) ∧
    (handleRest cfg now uErr uDelay uBurn uCor jitter exn dropOpt active rt).2.inflight
        = (if (handleRest cfg now uErr uDelay uBurn uCor jitter exn dropOpt
                active rt).1.preAdmission then rt.inflight else max 0 rt.inflight) ∧
    (pick_error uErr active = none → cfg.capacity ≤ rt.inflight →
      (handleRest cfg now uErr uDelay uBurn uCor jitter exn dropOpt active rt).1
          = .overCapacity ∧
      (handleRest cfg now uErr uDelay uBurn uCor jitter exn dropOpt active rt).2.fail
          = rt.fail + 1 ∧
      (handleRest cfg now uErr uDelay uBurn uCor jitter exn dropOpt
          active rt).2.last_error = some "over_capacity") := by
  cases he : pick_error uErr active with
  | some ef =>
    simp only [handleRest, he]
    simp [HandleResult.preAdmission]
  | none =>
    simp only [handleRest, he]
    by_cases hcap : cfg.capacity ≤ rt.inflight
    · rw [if_pos hcap]
      exact ⟨rfl, Or.inr ⟨rfl, rfl⟩, rfl, fun _ _ => ⟨rfl, rfl, rfl⟩⟩
    · rw [if_neg hcap]
      obtain ⟨h1, h2, h3, h4⟩ := handleAdmitted_spec cfg now uDelay uBurn uCor jitter
        exn dropOpt active { rt with inflight := rt.inflight + 1 }
      refine ⟨h1, h3, ?_, fun _ h => absurd h hcap⟩
      rw [h2, h4]
      simp

theorem snapshotActiveAt (now : ℚ) (faults : List Fault) :
    snapshot_active now faults = purge_expired now faults := rfl

/-- C5: every `/handle` call increments `total` exactly once — before fault
and admission evaluation — and exactly one of `ok` and `fail`, so
`ok + fail ≤ total` is preserved; an over-capacity rejection still bumps
`total`, bumps `fail`, tags `last_error = "over_capacity"` and returns the
503 result. -/
theorem C5_worker_counters (cfg : WorkerConfig) (now : ℚ)
    (uDrop uErr uDelay uBurn uCor : Nat → ℚ) (jitter : Int) (exn : Option String)
    (rt : WorkerRt) (faults : List Fault) :
    (handleWorker cfg now uDrop uErr uDelay uBurn uCor jitter exn rt faults).2.1.total
        = rt.total + 1 ∧
    (((handleWorker cfg now uDrop uErr uDelay uBurn uCor jitter exn rt faults).2.1.ok
          = rt.ok + 1 ∧
      (handleWorker cfg now uDrop uErr uDelay uBurn uCor jitter exn rt faults).2.1.fail
          = rt.fail) ∨
     ((handleWorker cfg now uDrop uErr uDelay uBurn uCor jitter exn rt faults).2.1.ok
          = rt.ok ∧
      (handleWorker cfg now uDrop uErr uDelay uBurn uCor jitter exn rt faults).2.1.fail
          = rt.fail + 1)) ∧
    (rt.ok + rt.fail ≤ rt.total →
      (handleWorker cfg now uDrop uErr uDelay uBurn uCor jitter exn rt faults).2.1.ok
          + (handleWorker cfg now uDrop uErr uDelay uBurn uCor jitter exn
              rt faults).2.1.fail
        ≤ (handleWorker cfg now uDrop uErr uDelay uBurn uCor jitter exn
            rt faults).2.1.total) ∧
    (pick_drop uDrop (snapshot_active now faults) = none →
     pick_error uErr (snapshot_active now faults) = none →
     cfg.capacity ≤ rt.inflight →
      (handleWorker cfg now uDrop uErr uDelay uBurn uCor jitter exn rt faults).1
          = .overCapacity ∧
      (handleWorker cfg now uDrop uErr uDelay uBurn uCor jitter exn rt faults).2.1.fail
          = rt.fail + 1 ∧
      (handleWorker cfg now uDrop uErr uDelay uBurn uCor jitter exn
          rt faults).2.1.last_error = some "over_capacity") := by
  cases hd : pick_drop uDrop (snapshot_active now faults) with
  | some d =>
    simp only [handleWorker, hd]
    split
    · exact ⟨rfl, Or.inr ⟨rfl, rfl⟩, by intro h; dsimp only; omega,
        fun h => by cases h⟩
    · obtain ⟨h1, h2, h3, h4⟩ := handleRest_spec cfg now uErr uDelay uBurn uCor jitter
        exn (some d) (snapshot_active now faults) { rt with total := rt.total + 1 }
      refine ⟨h1, h2, ?_, fun h => by cases h⟩
      intro hinv
      rcases h2 with ⟨ho, hf⟩ | ⟨ho, hf⟩ <;> rw [ho, hf, h1] <;> dsimp only <;> omega
  | none =>
    simp only [handleWorker, hd]
    obtain ⟨h1, h2, h3, h4⟩ := handleRest_spec cfg now uErr uDelay uBurn uCor jitter
      exn none (snapshot_active now faults) { rt with total := rt.total + 1 }
    refine ⟨h1, h2, ?_, ?_⟩
    · intro hinv
      rcases h2 with ⟨ho, hf⟩ | ⟨ho, hf⟩ <;> rw [ho, hf, h1] <;> dsimp only <;> omega
    · intro _ he hcap
      exact h4 he hcap

/-- Concrete run of C5: an over-capacity request (capacity 1, one in
flight, no faults) is rejected with `fail` bumped and `total` bumped. -/
theorem C5_worker_counters_witness :
    (handleWorker { capacity := 1 } 0 (fun _ => 0) (fun _ => 0) (fun _ => 0)
        (fun _ => 0) (fun _ => 0) 0 none { inflight := 1 } []).1 = .overCapacity ∧
    (handleWorker { capacity := 1 } 0 (fun _ => 0) (fun _ => 0) (fun _ => 0)
        (fun _ => 0) (fun _ => 0) 0 none { inflight := 1 } []).2.1.fail = 0 + 1 ∧
    (handleWorker { capacity := 1 } 0 (fun _ => 0) (fun _ => 0) (fun _ => 0)
        (fun _ => 0) (fun _ => 0) 0 none { inflight := 1 } []).2.1.last_error
      = some "over_capacity" :=
  (C5_worker_counters { capacity := 1 } 0 (fun _ => 0) (fun _ => 0) (fun _ => 0)
    (fun _ => 0) (fun _ => 0) 0 none { inflight := 1 } []).2.2.2
    (by decide) (by decide) (by decide)

/-- C10: `inflight` balance of `/handle`.  Starting non-negative, a call
leaves `inflight` exactly unchanged (so it never goes negative);
pre-admission exits (drop-503, error fault, over-capacity) never touch it,
while every admitted request increments it once and decrements it once,
clamped at 0, on every exit path. -/
theorem C10_worker_inflight (cfg : WorkerConfig) (now : ℚ)
    (uDrop uErr uDelay uBurn uCor : Nat → ℚ) (jitter : Int) (exn : Option String)
    (rt : WorkerRt) (faults : List Fault) :
    (handleWorker cfg now uDrop uErr uDelay uBurn uCor jitter exn
        rt faults).2.1.inflight
      = (if (handleWorker cfg now uDrop uErr uDelay uBurn uCor jitter exn
              rt faults).1.preAdmission
         then rt.inflight else max 0 rt.inflight) ∧
    (0 ≤ rt.inflight →
      (handleWorker cfg now uDrop uErr uDelay uBurn uCor jitter exn
          rt faults).2.1.inflight = rt.inflight ∧
      0 ≤ (handleWorker cfg now uDrop uErr uDelay uBurn uCor jitter exn
          rt faults).2.1.inflight) := by
  have hmain : (handleWorker cfg now uDrop uErr uDelay uBurn uCor jitter exn
      rt faults).2.1.inflight
      = (if (handleWorker cfg now uDrop uErr uDelay uBurn uCor jitter exn
              rt faults).1.preAdmission
         then rt.inflight else max 0 rt.inflight) := by
    cases hd : pick_drop uDrop (snapshot_active now faults) with
    | some d =>
      simp only [handleWorker, hd]
      split
      · rfl
      · obtain ⟨_, _, h3, _⟩ := handleRest_spec cfg now uErr uDelay uBurn uCor jitter
          exn (some d) (snapshot_active now faults) { rt with total := rt.total + 1 }
        exact h3
    | none =>
      simp only [handleWorker, hd]
      obtain ⟨_, _, h3, _⟩ := handleRest_spec cfg now uErr uDelay uBurn uCor jitter
        exn none (snapshot_active now faults) { rt with total := rt.total + 1 }
      exact h3
  refine ⟨hmain, fun hge => ?_⟩
  rw [hmain]
  have hmax : max 0 rt.inflight = rt.inflight := max_eq_right hge
  split <;> simp [hmax, hge]

/-- Concrete run of C10: with no faults and capacity 50, a successful call
from one in flight returns to one in flight. -/
theorem C10_worker_inflight_witness :
    (handleWorker {} 0 (fun _ => 0) (fun _ => 0) (fun _ => 0) (fun _ => 0)
        (fun _ => 0) 0 none { inflight := 1 } []).2.1.inflight = 1 ∧
    0 ≤ (handleWorker {} 0 (fun _ => 0) (fun _ => 0) (fun _ => 0) (fun _ => 0)
        (fun _ => 0) 0 none { inflight := 1 } []).2.1.inflight :=
  (C10_worker_inflight {} 0 (fun _ => 0) (fun _ => 0) (fun _ => 0) (fun _ => 0)
    (fun _ => 0) 0 none { inflight := 1 } []).2 (by decide)


/-- C9: `/experiment/reset` zeroes, on every worker record, `assigned`,
`ok`, `fail`, `avg_latency_ms`, `current_weight` and `disabled_until`,
leaving `id`, `url`, `reported_weight`, `manual_weight`, `auto_weight`,
`effective_weight` and `online` unchanged; its response lists one ok/err
entry per target (clientgen stop/reset, each worker, the LB itself); and no
other LB operation writes `current_weight` — each of them preserves every
record's `current_weight` exactly. -/
theorem C9_experiment_reset :
    (∀ w : WorkerState,
      (resetWorker w).assigned = 0 ∧ (resetWorker w).ok = 0 ∧
      (resetWorker w).fail = 0 ∧ (resetWorker w).avg_latency_ms = 0 ∧
      (resetWorker w).current_weight = 0 ∧ (resetWorker w).disabled_until = 0 ∧
      (resetWorker w).id = w.id ∧ (resetWorker w).url = w.url ∧
      (resetWorker w).reported_weight = w.reported_weight ∧
      (resetWorker w).manual_weight = w.manual_weight ∧
      (resetWorker w).auto_weight = w.auto_weight ∧
      (resetWorker w).effective_weight = w.effective_weight ∧
      (resetWorker w).online = w.online) ∧
    (∀ ws : List WorkerState, resetExperiment ws = ws.map resetWorker) ∧
    (∀ (cgStop cgReset : Option String) (workerRes : List (String × Option String))
       (historyErr : Option String),
      (resetResults cgStop cgReset workerRes historyErr).length
          = workerRes.length + 4 ∧
      ∀ p ∈ workerRes,
        (⟨"worker", some p.1, p.2.isNone, p.2⟩ : ResetResult)
          ∈ resetResults cgStop cgReset workerRes historyErr) ∧
    (∀ (mode : String) (w : WorkerState),
      (recompute_effective mode w).current_weight = w.current_weight) ∧
    (∀ (mode : String) (weight : Int) (w : WorkerState),
      (setManualWeight mode weight w).current_weight = w.current_weight) ∧
    (∀ (mode : String) (w : WorkerState),
      (clearManualWeight mode w).current_weight = w.current_weight) ∧
    (∀ (mode : String) (now : ℚ) (res : Except String HealthData) (w : WorkerState),
      (healthApply mode now res w).current_weight = w.current_weight) ∧
    (∀ (alpha ms : ℚ) (w : WorkerState),
      (record_success alpha ms w).current_weight = w.current_weight) ∧
    (∀ (e : String) (w : WorkerState),
      (record_failure e w).current_weight = w.current_weight) ∧
    (∀ (now s : ℚ) (w : WorkerState),
      (disable_temporarily now s w).current_weight = w.current_weight) ∧
    (∀ (amax : Int) (ws : List WorkerState) (j : Nat),
      cwAt (computeAutoWeights amax ws) j = cwAt ws j) ∧
    (∀ (amax : Int) (mode : String) (ws : List WorkerState) (j : Nat),
      cwAt (autoTick amax mode ws) j = cwAt ws j) ∧
    (∀ (mode : String) (ws : List WorkerState) (j : Nat),
      cwAt (setWeightMode mode ws) j = cwAt ws j) ∧
    (∀ (mode : String) (now : ℚ) (res : Nat → Except String HealthData)
       (ws : List WorkerState) (j : Nat),
      cwAt (refreshHealthOnce mode now res ws) j = cwAt ws j) := by
  have hhealth : ∀ (mode : String) (now : ℚ) (res : Except String HealthData)
      (w : WorkerState), (healthApply mode now res w).current_weight
        = w.current_weight := by
    intro mode now res w
    cases res with
    | error e => rfl
    | ok d =>
      rcases d with ⟨wid, wt, bl⟩
      cases wid <;> cases wt <;> cases bl <;> rfl
  have hmapcw : ∀ (f : WorkerState → WorkerState),
      (∀ w, (f w).current_weight = w.current_weight) →
      ∀ (ws : List WorkerState) (j : Nat), cwAt (ws.map f) j = cwAt ws j := by
    intro f hf ws j
    rw [cwAt, cwAt, List.get?_map]
    cases ws.get? j with
    | none => rfl
    | some w => simp [hf w]
  refine ⟨fun w => ⟨rfl, rfl, rfl, rfl, rfl, rfl, rfl, rfl, rfl, rfl, rfl, rfl, rfl⟩,
    fun ws => rfl, ?_, fun mode w => rfl, ?_, fun mode w => rfl, hhealth,
    fun alpha ms w => rfl, fun e w => rfl, fun now s w => rfl, ?_, ?_, ?_, ?_⟩
  · intro cgStop cgReset workerRes historyErr
    constructor
    · simp [resetResults]
    · intro q hq
      rw [resetResults]
      refine List.mem_append.mpr (Or.inl (List.mem_append.mpr (Or.inr ?_)))
      exact List.mem_map.mpr ⟨q, hq, rfl⟩
  · intro mode weight w
    rw [setManualWeight]
    split <;> rfl
  · intro amax ws j
    rw [computeAutoWeights]
    split
    · rfl
    · exact hmapcw _ (fun w => by split <;> rfl) ws j
  · intro amax mode ws j
    rw [autoTick]
    split
    · rw [hmapcw (recompute_effective mode) (fun w => rfl)]
      rw [computeAutoWeights]
      split
      · rfl
      · exact hmapcw _ (fun w => by split <;> rfl) ws j
    · rfl
  · intro mode ws j
    exact hmapcw (recompute_effective mode) (fun w => rfl) ws j
  · intro mode now res ws j
    rw [cwAt, cwAt, refreshHealthOnce, List.get?_map, List.get?_enum]
    cases ws.get? j with
    | none => rfl
    | some w => simp [hhealth]

/-- Concrete run of C9: resetting a dirtied record zeroes the six counters
and keeps the weight fields. -/
theorem C9_experiment_reset_witness :
    (resetWorker { id := "a", url := "u", assigned := 5, ok := 4, fail := 1,
                   avg_latency_ms := 12, current_weight := 3,
                   disabled_until := 7, effective_weight := 2 }).current_weight = 0 ∧
    (resetWorker { id := "a", url := "u", assigned := 5, ok := 4, fail := 1,
                   avg_latency_ms := 12, current_weight := 3,
                   disabled_until := 7, effective_weight := 2 }).effective_weight = 2 ∧
    (⟨"worker", some "w2", false, some "boom"⟩ : ResetResult)
      ∈ resetResults none none [("w1", none), ("w2", some "boom")] none := by
  refine ⟨(C9_experiment_reset.1 _).2.2.2.2.1, ?_, ?_⟩
  · have h := (C9_experiment_reset.1
      { id := "a", url := "u", assigned := 5, ok := 4, fail := 1,
        avg_latency_ms := 12, current_weight := 3,
        disabled_until := 7, effective_weight := 2 }).2.2.2.2.2.2.2.2.2.2.2.1
    exact h
  · have h := (C9_experiment_reset.2.2.1 none none
      [("w1", none), ("w2", some "boom")] none).2 ("w2", some "boom")
      (by decide)
    exact h

theorem init_le_foldl_max : ∀ (l : List ℚ) (b : ℚ), b ≤ l.foldl max b := by
  intro l
  induction l with
  | nil => intro b; exact le_refl b
  | cons y ys ih =>
    intro b
    exact le_trans (le_max_left b y) (ih (max b y))

theorem mem_le_foldl_max : ∀ (l : List ℚ) (b x : ℚ), x ∈ l → x ≤ l.foldl max b := by
  intro l
  induction l with
  | nil => intro b x h; cases h
  | cons y ys ih =>
    intro b x h
    rcases List.mem_cons.mp h with rfl | h2
    · exact le_trans (le_max_right b x) (init_le_foldl_max ys (max b x))
    · exact ih (max b y) x h2

theorem le_listMax {l : List ℚ} {x : ℚ} (h : x ∈ l) : x ≤ listMax l := by
  cases l with
  | nil => cases h
  | cons y ys =>
    rcases List.mem_cons.mp h with rfl | h2
    · exact init_le_foldl_max ys x
    · exact mem_le_foldl_max ys y x h2

theorem score_nonneg (w : WorkerState) : 0 ≤ score w := le_max_left 0 _

theorem failRate_nonneg (w : WorkerState) : 0 ≤ failRate w := by
  rw [failRate]
  positivity

theorem failRate_le_one (w : WorkerState) : failRate w ≤ 1 := by
  rw [failRate]
  rw [div_le_one (by positivity)]
  have h : w.fail ≤ max 1 (w.ok + w.fail) := le_trans (Nat.le_add_left _ _) (le_max_right _ _)
  exact_mod_cast h

theorem scoreLat_pos (w : WorkerState) : 0 < scoreLat w := by
  have h : ∀ x : ℚ, 0 < if x ≤ 0 then (50 : ℚ) else x := by
    intro x
    split
    · norm_num
    · linarith [not_le.mp (by assumption)]
  simp only [scoreLat]
  exact h _

theorem score_eq (w : WorkerState) :
    score w = 1 / (scoreLat w + 1) * (1 - failRate w) := by
  rw [score]
  refine max_eq_right (mul_nonneg ?_ ?_)
  · have := scoreLat_pos w
    positivity
  · linarith [failRate_le_one w]

theorem ratFloor_eq_intFloor (q : ℚ) : q.floor = ⌊q⌋ := by
  rw [Rat.floor_def', Rat.floor_def]

theorem pyRound_of_fract_lt_half (q : ℚ) (n : Int) (hn : ⌊q⌋ = n)
    (h : q - (n : ℚ) < 1 / 2) : pyRound q = n := by
  simp only [pyRound, ratFloor_eq_intFloor, hn]
  rw [if_pos h]

theorem pyRound_ten : pyRound 10 = 10 := by
  have hfl : ⌊(10 : ℚ)⌋ = 10 := by
    rw [Int.floor_eq_iff]
    norm_num
  exact pyRound_of_fract_lt_half 10 10 hfl (by norm_num)

theorem pyRound_zero : pyRound 0 = 0 := by
  have hfl : ⌊(0 : ℚ)⌋ = 0 := Int.floor_zero
  exact pyRound_of_fract_lt_half 0 0 hfl (by norm_num)

theorem pyRound_110_101 : pyRound (110 / 101) = 1 := by
  have hfl : ⌊(110 / 101 : ℚ)⌋ = 1 := by
    rw [Int.floor_eq_iff]
    norm_num
  exact pyRound_of_fract_lt_half (110 / 101) 1 hfl (by norm_num)

theorem computeAutoWeights_get?_offline (amax : Int) (ws : List WorkerState)
    (j : Nat) (w : WorkerState) (hjw : ws.get? j = some w)
    (hon : w.online = false) :
    (computeAutoWeights amax ws).get? j = some w := by
  rw [computeAutoWeights]
  split
  · exact hjw
  · simp only [List.get?_map, hjw, Option.map_some', hon, Bool.false_eq_true, if_false]

theorem computeAutoWeights_get?_online (amax : Int) (ws : List WorkerState)
    (j : Nat) (w : WorkerState) (hjw : ws.get? j = some w)
    (hon : w.online = true) :
    (computeAutoWeights amax ws).get? j
      = some { w with auto_weight := some (max 1 (pyRound ((amax : ℚ) *
          (score w / listMax ((ws.filter (fun x => x.online)).map score))))) } := by
  have hmem : w ∈ ws := List.get?_mem hjw
  have hmemf : w ∈ ws.filter (fun x => x.online) := List.mem_filter.mpr ⟨hmem, hon⟩
  have hsc : score w ∈ (ws.filter (fun x => x.online)).map score :=
    List.mem_map_of_mem score hmemf
  have hne : ¬ (((ws.filter (fun x => x.online)).map score).isEmpty = true) := by
    rw [List.isEmpty_iff]
    intro h
    rw [h] at hsc
    cases hsc
  simp only [computeAutoWeights]
  rw [if_neg hne]
  simp only [List.get?_map, hjw, Option.map_some', hon, if_true]
  by_cases hm : listMax ((ws.filter (fun x => x.online)).map score) = 0
  · have h0 : score w = 0 := le_antisymm (hm ▸ le_listMax hsc) (score_nonneg w)
    rw [if_pos hm, hm, h0]
    norm_num
  · rw [if_neg hm]


/-- C7 counterexample: two online workers with `avg_latency_ms` 10 and 100
and equal fail rates (both 1: `ok = 0`, `fail = 1`): every score is 0, the
`or 1.0` fallback kicks in, and both workers receive `auto_weight = 1` — the
faster worker does NOT get a strictly larger auto weight. -/
theorem C7_auto_weight_counterexample :
    failRate { id := "f", url := "uf", avg_latency_ms := 10, fail := 1 }
      = failRate { id := "s", url := "us", avg_latency_ms := 100, fail := 1 } ∧
    autoWeightAt (computeAutoWeights 10
      [{ id := "f", url := "uf", avg_latency_ms := 10, fail := 1 },
       { id := "s", url := "us", avg_latency_ms := 100, fail := 1 }]) 0 = 1 ∧
    autoWeightAt (computeAutoWeights 10
      [{ id := "f", url := "uf", avg_latency_ms := 10, fail := 1 },
       { id := "s", url := "us", avg_latency_ms := 100, fail := 1 }]) 1 = 1 ∧
    ¬ (autoWeightAt (computeAutoWeights 10
        [{ id := "f", url := "uf", avg_latency_ms := 10, fail := 1 },
         { id := "s", url := "us", avg_latency_ms := 100, fail := 1 }]) 1
       < autoWeightAt (computeAutoWeights 10
        [{ id := "f", url := "uf", avg_latency_ms := 10, fail := 1 },
         { id := "s", url := "us", avg_latency_ms := 100, fail := 1 }]) 0) := by
  have hfF : failRate { id := "f", url := "uf", avg_latency_ms := 10, fail := 1 }
      = 1 := by
    norm_num [failRate]
  have hfS : failRate { id := "s", url := "us", avg_latency_ms := 100, fail := 1 }
      = 1 := by
    norm_num [failRate]
  have hsF : score { id := "f", url := "uf", avg_latency_ms := 10, fail := 1 }
      = 0 := by
    rw [score_eq, hfF]
    norm_num
  have hsS : score { id := "s", url := "us", avg_latency_ms := 100, fail := 1 }
      = 0 := by
    rw [score_eq, hfS]
    norm_num
  have h0 := computeAutoWeights_get?_online 10
    [{ id := "f", url := "uf", avg_latency_ms := 10, fail := 1 },
     { id := "s", url := "us", avg_latency_ms := 100, fail := 1 }] 0
    { id := "f", url := "uf", avg_latency_ms := 10, fail := 1 } rfl rfl
  have h1 := computeAutoWeights_get?_online 10
    [{ id := "f", url := "uf", avg_latency_ms := 10, fail := 1 },
     { id := "s", url := "us", avg_latency_ms := 100, fail := 1 }] 1
    { id := "s", url := "us", avg_latency_ms := 100, fail := 1 } rfl rfl
  have hm0 : listMax (([{ id := "f", url := "uf", avg_latency_ms := 10, fail := 1 },
      { id := "s", url := "us", avg_latency_ms := 100, fail := 1 }].filter
        (fun x => x.online)).map score) = 0 := by
    show listMax [score { id := "f", url := "uf", avg_latency_ms := 10, fail := 1 },
      score { id := "s", url := "us", avg_latency_ms := 100, fail := 1 }] = 0
    simp [listMax, hsF, hsS]
  rw [hm0, hsF] at h0
  rw [hm0, hsS] at h1
  have e0 : autoWeightAt (computeAutoWeights 10
      [{ id := "f", url := "uf", avg_latency_ms := 10, fail := 1 },
       { id := "s", url := "us", avg_latency_ms := 100, fail := 1 }]) 0 = 1 := by
    rw [autoWeightAt, h0]
    simp [pyRound_zero]
  have e1 : autoWeightAt (computeAutoWeights 10
      [{ id := "f", url := "uf", avg_latency_ms := 10, fail := 1 },
       { id := "s", url := "us", avg_latency_ms := 100, fail := 1 }]) 1 = 1 := by
    rw [autoWeightAt, h1]
    simp [pyRound_zero]
  refine ⟨by rw [hfF, hfS], e0, e1, ?_⟩
  rw [e0, e1]
  omega

/-- C7 (amended): one auto-weight computation leaves every offline worker
untouched and assigns every online worker
`auto_weight = max(1, round(AUTO_WEIGHT_MAX · s_i / s_max))` with the score
and fallback-latency rule of the claim; and for two online workers with
equal fail rates strictly below 1 and `avg_latency_ms` 10 and 100, the
faster worker receives the strictly larger auto weight. -/
theorem C7_auto_weight_controller :
    (∀ (amax : Int) (ws : List WorkerState) (j : Nat) (w : WorkerState),
      ws.get? j = some w → w.online = false →
      (computeAutoWeights amax ws).get? j = some w) ∧
    (∀ (amax : Int) (ws : List WorkerState) (j : Nat) (w : WorkerState),
      ws.get? j = some w → w.online = true →
      (computeAutoWeights amax ws).get? j
        = some { w with auto_weight := some (max 1 (pyRound ((amax : ℚ) *
            (score w / listMax ((ws.filter (fun x => x.online)).map score))))) }) ∧
    (∀ wF wS : WorkerState,
      wF.online = true → wS.online = true →
      wF.avg_latency_ms = 10 → wS.avg_latency_ms = 100 →
      failRate wF = failRate wS → failRate wF < 1 →
      autoWeightAt (computeAutoWeights 10 [wF, wS]) 1
        < autoWeightAt (computeAutoWeights 10 [wF, wS]) 0) := by
  refine ⟨computeAutoWeights_get?_offline, computeAutoWeights_get?_online, ?_⟩
  intro wF wS honF honS hlatF hlatS heq hlt
  have h1f : 0 < 1 - failRate wF := by linarith
  have hslF : scoreLat wF = 10 := by
    simp only [scoreLat, hlatF]
    norm_num
  have hslS : scoreLat wS = 100 := by
    simp only [scoreLat, hlatS]
    norm_num
  have hsF : score wF = 1 / 11 * (1 - failRate wF) := by
    rw [score_eq, hslF]
    norm_num
  have hsS : score wS = 1 / 101 * (1 - failRate wF) := by
    rw [score_eq, hslS, ← heq]
    norm_num
  have hposF : 0 < score wF := by
    rw [hsF]
    exact mul_pos (by norm_num) h1f
  have hle : score wS ≤ score wF := by
    rw [hsF, hsS]
    exact mul_le_mul_of_nonneg_right (by norm_num) (le_of_lt h1f)
  have hm0 : listMax (([wF, wS].filter (fun x => x.online)).map score)
      = score wF := by
    have hfil : [wF, wS].filter (fun x => x.online) = [wF, wS] := by
      simp [List.filter, honF, honS]
    rw [hfil]
    show listMax [score wF, score wS] = score wF
    simp [listMax, max_eq_left hle]
  have h0 := computeAutoWeights_get?_online 10 [wF, wS] 0 wF rfl honF
  have h1 := computeAutoWeights_get?_online 10 [wF, wS] 1 wS rfl honS
  rw [hm0] at h0 h1
  have hrF : ((10 : Int) : ℚ) * (score wF / score wF) = 10 := by
    rw [div_self hposF.ne']
    norm_num
  have hrS : ((10 : Int) : ℚ) * (score wS / score wF) = 110 / 101 := by
    have hne1 : (1 : ℚ) - failRate wF ≠ 0 := h1f.ne'
    rw [hsF, hsS]
    push_cast
    field_simp
    ring
  rw [hrF] at h0
  rw [hrS] at h1
  rw [autoWeightAt, autoWeightAt, h0, h1]
  simp [pyRound_ten, pyRound_110_101]

/-- Concrete run of the amended C7: two fresh online workers with latencies
10 and 100 and equal zero fail rates; the faster one gets the strictly
larger auto weight. -/
theorem C7_auto_weight_controller_witness :
    autoWeightAt (computeAutoWeights 10
        [{ id := "f", url := "uf", avg_latency_ms := 10 },
         { id := "s", url := "us", avg_latency_ms := 100 }]) 1
      < autoWeightAt (computeAutoWeights 10
        [{ id := "f", url := "uf", avg_latency_ms := 10 },
         { id := "s", url := "us", avg_latency_ms := 100 }]) 0 :=
  C7_auto_weight_controller.2.2
    { id := "f", url := "uf", avg_latency_ms := 10 }
    { id := "s", url := "us", avg_latency_ms := 100 }
    rfl rfl rfl rfl rfl (by norm_num [failRate])


end PoB
